import Mathlib

/-!
Verification of the bytecode disassembler (`src/disassembler/disassembler.rs`
and `src/disassembler/instructions.rs`).

Shallow embedding conventions:
* bytes (`u8`) are `Fin 256`;
* the `Vec<u8>` byte buffer is a `List (Fin 256)`, the cursor `ptr` a `Nat`;
* the 256-entry `Vec<String>` register file is a total function
  `Fin 256 → String` (every Rust index is a `u8`, hence in range);
* `f64` arithmetic in `read_double` is embedded over `ℚ`: on the inputs the
  claims concern (zero and subnormal patterns) every intermediate Rust `f64`
  value is exactly representable, so the rational computation agrees with it;
* Rust panics (`index out of bounds`, `Unknown Opcode`) are modelled as
  `Except` errors that abort the run.
-/

set_option maxHeartbeats 1000000
set_option maxRecDepth 100000

namespace Bet365

/-- Errors of the decode engine: a cursor read past the end of the buffer
(the source's `index out of bounds` panic) and an opcode byte missing from
the dispatch table (the source's `Unknown Opcode` panic). -/
inductive DisasmError where
  | outOfBounds
  | unknownOpcode (b : Fin 256)
deriving DecidableEq

/-- The state of `struct Disassembler`: the byte buffer, the cursor, the
256-slot register file (initialised everywhere to the sentinel
`"_free_reg_"` in `Disassembler::new`), and the accumulated trace lines. -/
structure Disassembler where
  bytearray : List (Fin 256)
  ptr : Nat
  registers : Fin 256 → String
  trace : List String

/-- `Disassembler::get_byte`: the byte at the cursor, advancing by one. -/
def get_byte (s : Disassembler) : Except DisasmError (Fin 256 × Disassembler) :=
  match s.bytearray[s.ptr]? with
  | some b => .ok (b, { s with ptr := s.ptr + 1 })
  | none => .error .outOfBounds

/-- `Disassembler::get_pointer_byte`: two bytes, big-endian,
composed as `(b1 <<< 8) ||| b2`. -/
def get_pointer_byte (s : Disassembler) : Except DisasmError (Nat × Disassembler) := do
  let (b1, s) ← get_byte s
  let (b2, s) ← get_byte s
  .ok ((b1.val <<< 8) ||| b2.val, s)

/-- The loop body of `Disassembler::decode_value`: read `n` bytes, XOR each
with the mask `50` and take the resulting code point. -/
def decode_chars (s : Disassembler) : Nat → Except DisasmError (List Char × Disassembler)
  | 0 => .ok ([], s)
  | n + 1 => do
    let (b, s) ← get_byte s
    let (cs, s) ← decode_chars s n
    .ok (Char.ofNat (b.val ^^^ 50) :: cs, s)

/-- `Disassembler::decode_value`: a 16-bit big-endian length prefix, then
that many XOR-50-deobfuscated characters. -/
def decode_value (s : Disassembler) : Except DisasmError (String × Disassembler) := do
  let (string_len, s) ← get_pointer_byte s
  let (cs, s) ← decode_chars s string_len
  .ok (String.mk cs, s)

/-- `Disassembler::get_int24`: four bytes, big-endian (despite the name). -/
def get_int24 (s : Disassembler) : Except DisasmError (Nat × Disassembler) := do
  let (b0, s) ← get_byte s
  let (b1, s) ← get_byte s
  let (b2, s) ← get_byte s
  let (b3, s) ← get_byte s
  .ok ((b0.val <<< 24) ||| (b1.val <<< 16) ||| (b2.val <<< 8) ||| b3.val, s)

/-- The eight bits of a byte, most significant first: the source's
`format!("{:b}", byte)` left-padded with `0` to width 8, with the digit
characters modelled as the numbers 0 and 1. -/
def byteBits (b : Fin 256) : List Nat :=
  [b.val / 128 % 2, b.val / 64 % 2, b.val / 32 % 2, b.val / 16 % 2,
   b.val / 8 % 2, b.val / 4 % 2, b.val / 2 % 2, b.val % 2]

/-- `i32::from_str_radix(bits, 2)`: the value of a big-endian bit list. -/
def binToNat (l : List Nat) : Nat :=
  l.foldl (fun a d => 2 * a + d) 0

/-- The mantissa summation loop of `Disassembler::read_double`
(`mantissa += frac * digit; frac /= 2.0`), carried out over `ℚ`. -/
def mantissaSum (l : List Nat) : ℚ :=
  (l.foldl (fun (p : ℚ × ℚ) (d : Nat) => (p.1 + p.2 * (d : ℚ), p.2 / 2)) (0, 1)).1

/-- `Disassembler::read_double`: eight bytes are turned into a 64-entry bit
list; bit 0 is the sign, bits 1–11 the biased exponent, bits 12–63 the
mantissa.  A zero exponent field with zero mantissa returns `0` outright;
a zero exponent field with nonzero mantissa uses exponent `-1022` and
significand `0 :: mantissa`; otherwise exponent `e - 1023` and significand
`1 :: mantissa`. -/
def read_double (s : Disassembler) : Except DisasmError (ℚ × Disassembler) := do
  let (b0, s) ← get_byte s
  let (b1, s) ← get_byte s
  let (b2, s) ← get_byte s
  let (b3, s) ← get_byte s
  let (b4, s) ← get_byte s
  let (b5, s) ← get_byte s
  let (b6, s) ← get_byte s
  let (b7, s) ← get_byte s
  let bit_string : List Nat :=
    byteBits b0 ++ byteBits b1 ++ byteBits b2 ++ byteBits b3 ++
    byteBits b4 ++ byteBits b5 ++ byteBits b6 ++ byteBits b7
  let sign : ℚ := if bit_string.take 1 = [1] then -1 else 1
  let exponent : Int := (binToNat ((bit_string.drop 1).take 11) : Int)
  let mantissa_bits : List Nat := bit_string.drop 12
  if exponent = 0 then
    if ¬ mantissa_bits.contains 1 then
      .ok (0, s)
    else
      .ok (sign * mantissaSum ((0 : Nat) :: mantissa_bits) * (2 : ℚ) ^ (-1022 : Int), s)
  else
    .ok (sign * mantissaSum ((1 : Nat) :: mantissa_bits) * (2 : ℚ) ^ (exponent - 1023), s)

/-- The `OpCodes` enum of `opcodes.rs` (a file not among the sources; its
variant names are fixed by their uses in `instructions.rs`). -/
inductive OpCodes where
  | InitMemory | NewValue | GetProperty | CallFunction | CallApply
  | Mul | Div | Or | Sub | Add | Shl | Shr | Ushr | And | Mod | Xor
  | Equal | NotEqual | StrictEqual | StrictNotEqual | LessThan | Lte
  | MovImm24 | LoadImm24 | PushArgs | JumpFrame | NewFunction
  | JumpIfFalse | JumpIfTrue | SetProperty | Jump | Halt | Ret
  | LoadDouble | TryCatch | Throw
deriving DecidableEq

/-- Modelled from the spec: `OpCodes::as_str` lives in `opcodes.rs`, which
is not among the sources; the mnemonic strings follow the spec's
operand-layout table (§4.4).  No claim depends on the exact mnemonic text,
only on the shape of the trace lines around it. -/
def OpCodes.as_str : OpCodes → String
  | .InitMemory => "init-memory"
  | .NewValue => "define-constant"
  | .GetProperty => "get-property"
  | .CallFunction => "call-function"
  | .CallApply => "call-apply"
  | .Mul => "mul"
  | .Div => "div"
  | .Or => "or"
  | .Sub => "sub"
  | .Add => "add"
  | .Shl => "shl"
  | .Shr => "shr"
  | .Ushr => "ushr"
  | .And => "and"
  | .Mod => "mod"
  | .Xor => "xor"
  | .Equal => "equal"
  | .NotEqual => "notequal"
  | .StrictEqual => "strict-equal"
  | .StrictNotEqual => "strict-notequal"
  | .LessThan => "less-than"
  | .Lte => "lte"
  | .MovImm24 => "mov-imm"
  | .LoadImm24 => "load-imm"
  | .PushArgs => "push-args"
  | .JumpFrame => "jump-frame"
  | .NewFunction => "new-function"
  | .JumpIfFalse => "jump-if-false"
  | .JumpIfTrue => "jump-if-true"
  | .SetProperty => "set-property"
  | .Jump => "jump"
  | .Halt => "halt"
  | .Ret => "function-return"
  | .LoadDouble => "load-double"
  | .TryCatch => "try-catch"
  | .Throw => "throw"

/-- The register-resolution conditional repeated inline in `get_property`,
`call_function`, `call_apply` and `set_property`: the stored text when the
slot differs from the `"_free_reg_"` sentinel, else `"reg"` + index. -/
def resolve (regs : Fin 256 → String) (r : Fin 256) : String :=
  if regs r ≠ "_free_reg_" then regs r else "reg" ++ toString r.val

/-- The argument-reading loop shared by several formatters: read `n` bytes
and render each as `"reg"` + index. -/
def read_reg_list (s : Disassembler) : Nat → Except DisasmError (List String × Disassembler)
  | 0 => .ok ([], s)
  | n + 1 => do
    let (r, s) ← get_byte s
    let (rest, s) ← read_reg_list s n
    .ok (("reg" ++ toString r.val) :: rest, s)

/-- The common shape of the sixteen three-register binary formatters
(`mul_op`, `div_op`, …, `lte_op`): destination, left and right register
bytes, and one line `<mn> reg<l> <sep> reg<r> -> reg<d>`; `sep` carries its
surrounding spaces. -/
def fmt3 (mn sep : String) (s : Disassembler) : Except DisasmError Disassembler := do
  let (reg, s) ← get_byte s
  let (left_reg, s) ← get_byte s
  let (right_reg, s) ← get_byte s
  .ok { s with trace := s.trace ++
    [mn ++ " reg" ++ toString left_reg.val ++ sep ++ "reg" ++ toString right_reg.val
      ++ " -> reg" ++ toString reg.val] }

/-- The common shape of `jump_if_false` and `jump_if_true`: a condition
register byte and a 32-bit target. -/
def fmt_jump_if (mn : String) (s : Disassembler) : Except DisasmError Disassembler := do
  let (reg, s) ← get_byte s
  let (p, s) ← get_int24 s
  .ok { s with trace := s.trace ++
    [mn ++ " reg" ++ toString reg.val ++ ", entry(" ++ toString p ++ ")"] }

def init_memory (s : Disassembler) : Except DisasmError Disassembler := do
  let (reg, s) ← get_byte s
  let (value, s) ← get_byte s
  .ok { s with trace := s.trace ++
    [OpCodes.InitMemory.as_str ++ " " ++ toString value.val ++ " -> reg" ++ toString reg.val] }

/-- `new_value` (define-constant): the only formatter that writes to the
register file. -/
def new_value (s : Disassembler) : Except DisasmError Disassembler := do
  let (reg, s) ← get_byte s
  let (value, s) ← decode_value s
  .ok { s with
    trace := s.trace ++
      [OpCodes.NewValue.as_str ++ " " ++ "'" ++ value ++ "'" ++ " -> reg" ++ toString reg.val],
    registers := Function.update s.registers reg value }

def get_property (s : Disassembler) : Except DisasmError Disassembler := do
  let (reg, s) ← get_byte s
  let (obj_reg, s) ← get_byte s
  let (prop_reg, s) ← get_byte s
  let val : String := resolve s.registers prop_reg
  .ok { s with trace := s.trace ++
    [OpCodes.GetProperty.as_str ++ " reg" ++ toString obj_reg.val ++ "[" ++ val ++ "] -> reg"
      ++ toString reg.val] }

def call_function (s : Disassembler) : Except DisasmError Disassembler := do
  let (reg, s) ← get_byte s
  let (func_reg, s) ← get_byte s
  let func : String := resolve s.registers func_reg
  let (arg_len, s) ← get_byte s
  let (args, s) ← read_reg_list s arg_len.val
  .ok { s with trace := s.trace ++
    [OpCodes.CallFunction.as_str ++ " " ++ func ++ "(" ++ String.intercalate "," args
      ++ ") -> reg" ++ toString reg.val] }

def mov_imm24 (s : Disassembler) : Except DisasmError Disassembler := do
  let (reg, s) ← get_byte s
  let (val_24, s) ← get_int24 s
  .ok { s with trace := s.trace ++
    [OpCodes.MovImm24.as_str ++ " " ++ toString val_24 ++ " -> reg" ++ toString reg.val] }

def call_apply (s : Disassembler) : Except DisasmError Disassembler := do
  let (reg, s) ← get_byte s
  let (func_reg, s) ← get_byte s
  let func : String := resolve s.registers func_reg
  let (this_reg, s) ← get_byte s
  let (arg_len, s) ← get_byte s
  let (args, s) ← read_reg_list s arg_len.val
  .ok { s with trace := s.trace ++
    [OpCodes.CallApply.as_str ++ " " ++ func ++ ".apply(reg" ++ toString this_reg.val ++ ", ["
      ++ String.intercalate "," args ++ "]) -> reg" ++ toString reg.val] }

def push_args (s : Disassembler) : Except DisasmError Disassembler := do
  let (reg, s) ← get_byte s
  let (arg_len, s) ← get_byte s
  let (args, s) ← read_reg_list s arg_len.val
  .ok { s with trace := s.trace ++
    [OpCodes.PushArgs.as_str ++ " [" ++ String.intercalate "," args ++ "] -> reg"
      ++ toString reg.val] }

def load_imm24 (s : Disassembler) : Except DisasmError Disassembler := do
  let (reg, s) ← get_byte s
  let (val_24, s) ← get_byte s
  .ok { s with trace := s.trace ++
    [OpCodes.LoadImm24.as_str ++ " " ++ toString val_24.val ++ " -> reg" ++ toString reg.val] }

def jump_frame (s : Disassembler) : Except DisasmError Disassembler := do
  let (p, s) ← get_int24 s
  let (context, s) ← get_byte s
  let (params_count, s) ← get_byte s
  let (params, s) ← read_reg_list s params_count.val
  .ok { s with trace := s.trace ++
    [OpCodes.JumpFrame.as_str ++ " entry(" ++ toString p ++ "), " ++ toString context.val
      ++ ", params(" ++ String.intercalate "," params ++ ")"] }

def new_function (s : Disassembler) : Except DisasmError Disassembler := do
  let (_reg, s) ← get_byte s
  let (func_entry, s) ← get_int24 s
  let (args_len, s) ← get_byte s
  let (args, s) ← read_reg_list s args_len.val
  .ok { s with trace := s.trace ++
    [OpCodes.NewFunction.as_str ++ " entry(" ++ toString func_entry ++ "), args("
      ++ String.intercalate "," args ++ ")"] }

def set_property (s : Disassembler) : Except DisasmError Disassembler := do
  let (obj_reg, s) ← get_byte s
  let (prop_reg, s) ← get_byte s
  let (val_reg, s) ← get_byte s
  let val : String := resolve s.registers val_reg
  let prop : String := resolve s.registers prop_reg
  .ok { s with trace := s.trace ++
    [OpCodes.SetProperty.as_str ++ " reg" ++ toString obj_reg.val ++ "[" ++ prop ++ "] = " ++ val] }

def jump (s : Disassembler) : Except DisasmError Disassembler := do
  let (p, s) ← get_int24 s
  .ok { s with trace := s.trace ++ [OpCodes.Jump.as_str ++ " " ++ toString p] }

def halt (s : Disassembler) : Except DisasmError Disassembler :=
  .ok { s with trace := s.trace ++ [OpCodes.Halt.as_str] }

def function_ret (s : Disassembler) : Except DisasmError Disassembler := do
  let (reg, s) ← get_byte s
  let (count, s) ← get_byte s
  let (list, s) ← read_reg_list s count.val
  .ok { s with trace := s.trace ++
    [OpCodes.Ret.as_str ++ " " ++ toString reg.val ++ " [" ++ String.intercalate "," list ++ "]"] }

def load_double (s : Disassembler) : Except DisasmError Disassembler := do
  let (reg, s) ← get_byte s
  let (val, s) ← read_double s
  .ok { s with trace := s.trace ++
    [OpCodes.LoadDouble.as_str ++ " " ++ toString val ++ " -> reg" ++ toString reg.val] }

def try_catch (s : Disassembler) : Except DisasmError Disassembler := do
  let (reg, s) ← get_byte s
  let (catch_offset, s) ← get_int24 s
  let (finally_offset, s) ← get_int24 s
  let (continue_offset, s) ← get_int24 s
  .ok { s with trace := s.trace ++
    [OpCodes.TryCatch.as_str ++ " [" ++ toString catch_offset ++ ", " ++ toString finally_offset
      ++ ", " ++ toString continue_offset ++ "] -> reg" ++ toString reg.val] }

def throw_op (s : Disassembler) : Except DisasmError Disassembler := do
  let (reg, s) ← get_byte s
  .ok { s with trace := s.trace ++ [OpCodes.Throw.as_str ++ " " ++ toString reg.val] }

def mul_op : Disassembler → Except DisasmError Disassembler := fmt3 OpCodes.Mul.as_str " * "
def div_op : Disassembler → Except DisasmError Disassembler := fmt3 OpCodes.Div.as_str " / "
def or_op : Disassembler → Except DisasmError Disassembler := fmt3 OpCodes.Or.as_str " | "
def sub_op : Disassembler → Except DisasmError Disassembler := fmt3 OpCodes.Sub.as_str " - "
def add_op : Disassembler → Except DisasmError Disassembler := fmt3 OpCodes.Add.as_str " + "
def shl_op : Disassembler → Except DisasmError Disassembler := fmt3 OpCodes.Shl.as_str " << "
def shr_op : Disassembler → Except DisasmError Disassembler := fmt3 OpCodes.Shr.as_str " >> "
def ushr_op : Disassembler → Except DisasmError Disassembler := fmt3 OpCodes.Ushr.as_str " >>> "
def and_op : Disassembler → Except DisasmError Disassembler := fmt3 OpCodes.And.as_str " & "
def mod_op : Disassembler → Except DisasmError Disassembler := fmt3 OpCodes.Mod.as_str " % "
def xor_op : Disassembler → Except DisasmError Disassembler := fmt3 OpCodes.Xor.as_str " ^ "
def equal_op : Disassembler → Except DisasmError Disassembler := fmt3 OpCodes.Equal.as_str " == "
def notequal_op : Disassembler → Except DisasmError Disassembler := fmt3 OpCodes.NotEqual.as_str " != "
def strict_equal_op : Disassembler → Except DisasmError Disassembler :=
  fmt3 OpCodes.StrictEqual.as_str " === "
def strict_notequal_op : Disassembler → Except DisasmError Disassembler :=
  fmt3 OpCodes.StrictNotEqual.as_str " !== "
def less_than : Disassembler → Except DisasmError Disassembler := fmt3 OpCodes.LessThan.as_str " < "
def lte_op : Disassembler → Except DisasmError Disassembler := fmt3 OpCodes.Lte.as_str " <= "
def jump_if_false : Disassembler → Except DisasmError Disassembler :=
  fmt_jump_if OpCodes.JumpIfFalse.as_str
def jump_if_true : Disassembler → Except DisasmError Disassembler :=
  fmt_jump_if OpCodes.JumpIfTrue.as_str

/-- One tag per distinct formatter routine of `Instructions`. -/
inductive Op where
  | initMemory | newValue | getProperty | callFunction | mulOp | movImm24 | callApply
  | divOp | orOp | subOp | pushArgs | loadImm24 | jumpFrame | newFunction | lessThan
  | jumpIfFalse | setProperty | addOp | jumpOp | haltOp | shlOp | functionRet | equalOp
  | xorOp | loadDouble | ushrOp | shrOp | andOp | modOp | lteOp | notequalOp | jumpIfTrue
  | tryCatch | strictEqualOp | strictNotequalOp | throwOp
deriving DecidableEq

/-- The dispatch table built by `Instructions::get_instructions`, as the
lookup function of the `HashMap<u8, InstructionType>`. -/
def table (b : Fin 256) : Option Op :=
  match b.val with
  | 124 => some .initMemory
  | 23 => some .newValue
  | 251 => some .getProperty
  | 215 => some .callFunction
  | 6 => some .mulOp
  | 241 => some .movImm24
  | 90 => some .callApply
  | 55 => some .divOp
  | 65 => some .orOp
  | 230 => some .subOp
  | 88 => some .pushArgs
  | 181 => some .loadImm24
  | 49 => some .jumpFrame
  | 171 => some .newFunction
  | 20 => some .lessThan
  | 39 => some .jumpIfFalse
  | 112 => some .lessThan
  | 99 => some .setProperty
  | 243 => some .addOp
  | 93 => some .jumpOp
  | 166 => some .haltOp
  | 53 => some .shlOp
  | 17 => some .functionRet
  | 78 => some .equalOp
  | 117 => some .xorOp
  | 51 => some .loadDouble
  | 40 => some .ushrOp
  | 149 => some .shrOp
  | 37 => some .andOp
  | 156 => some .modOp
  | 247 => some .lteOp
  | 214 => some .lteOp
  | 22 => some .notequalOp
  | 83 => some .jumpIfTrue
  | 115 => some .tryCatch
  | 161 => some .strictEqualOp
  | 220 => some .strictNotequalOp
  | 5 => some .throwOp
  | _ => none

/-- Dispatch a table tag to its formatter. -/
def runOp : Op → Disassembler → Except DisasmError Disassembler
  | .initMemory => init_memory
  | .newValue => new_value
  | .getProperty => get_property
  | .callFunction => call_function
  | .mulOp => mul_op
  | .movImm24 => mov_imm24
  | .callApply => call_apply
  | .divOp => div_op
  | .orOp => or_op
  | .subOp => sub_op
  | .pushArgs => push_args
  | .loadImm24 => load_imm24
  | .jumpFrame => jump_frame
  | .newFunction => new_function
  | .lessThan => less_than
  | .jumpIfFalse => jump_if_false
  | .setProperty => set_property
  | .addOp => add_op
  | .jumpOp => jump
  | .haltOp => halt
  | .shlOp => shl_op
  | .functionRet => function_ret
  | .equalOp => equal_op
  | .xorOp => xor_op
  | .loadDouble => load_double
  | .ushrOp => ushr_op
  | .shrOp => shr_op
  | .andOp => and_op
  | .modOp => mod_op
  | .lteOp => lte_op
  | .notequalOp => notequal_op
  | .jumpIfTrue => jump_if_true
  | .tryCatch => try_catch
  | .strictEqualOp => strict_equal_op
  | .strictNotequalOp => strict_notequal_op
  | .throwOp => throw_op

/-- Cursor reads only move the pointer forward: buffer, registers and trace
are untouched. -/
def ReadOnly (s s' : Disassembler) : Prop :=
  s'.bytearray = s.bytearray ∧ s.ptr ≤ s'.ptr ∧ s'.registers = s.registers ∧
    s'.trace = s.trace

theorem ReadOnly.refl {s : Disassembler} : ReadOnly s s :=
  ⟨Eq.refl _, Nat.le_refl _, Eq.refl _, Eq.refl _⟩

theorem ok_pair_inv {α : Type} {x v : α} {s1 s2 : Disassembler}
    (h : (Except.ok (x, s1) : Except DisasmError (α × Disassembler)) = .ok (v, s2)) :
    x = v ∧ s1 = s2 := by
  simpa using h

theorem ReadOnly.trans {s1 s2 s3 : Disassembler} (h1 : ReadOnly s1 s2)
    (h2 : ReadOnly s2 s3) : ReadOnly s1 s3 :=
  ⟨h2.1.trans h1.1, h1.2.1.trans h2.2.1, h2.2.2.1.trans h1.2.2.1,
    h2.2.2.2.trans h1.2.2.2⟩

theorem bind_ok_inv {α β : Type} {x : Except DisasmError α}
    {f : α → Except DisasmError β} {b : β} (h : x >>= f = .ok b) :
    ∃ a, x = .ok a ∧ f a = .ok b := by
  cases x with
  | ok a => exact ⟨a, rfl, h⟩
  | error e => simp [Bind.bind, Except.bind] at h

theorem get_byte_ok {s : Disassembler} {b : Fin 256} {s' : Disassembler}
    (h : get_byte s = .ok (b, s')) :
    s.bytearray[s.ptr]? = some b ∧ s' = { s with ptr := s.ptr + 1 } := by
  unfold get_byte at h
  cases hx : s.bytearray[s.ptr]? <;> rw [hx] at h
  · exact absurd h (by simp)
  · simp only [Except.ok.injEq, Prod.mk.injEq] at h
    exact ⟨by rw [h.1], h.2.symm⟩

theorem get_byte_ro {s : Disassembler} {b : Fin 256} {s' : Disassembler}
    (h : get_byte s = .ok (b, s')) : ReadOnly s s' := by
  obtain ⟨-, rfl⟩ := get_byte_ok h
  exact ⟨Eq.refl _, Nat.le_succ _, Eq.refl _, Eq.refl _⟩

theorem get_pointer_byte_ro {s : Disassembler} {n : Nat} {s' : Disassembler}
    (h : get_pointer_byte s = .ok (n, s')) : ReadOnly s s' := by
  unfold get_pointer_byte at h
  obtain ⟨⟨b1, s1⟩, h1, h⟩ := bind_ok_inv h
  obtain ⟨⟨b2, s2⟩, h2, h⟩ := bind_ok_inv h
  simp only [Except.ok.injEq, Prod.mk.injEq] at h
  rw [← h.2]
  exact (get_byte_ro h1).trans (get_byte_ro h2)

theorem decode_chars_ro {n : Nat} {s : Disassembler} {cs : List Char}
    {s' : Disassembler} (h : decode_chars s n = .ok (cs, s')) : ReadOnly s s' := by
  induction n generalizing s cs s' with
  | zero =>
    unfold decode_chars at h
    simp only [Except.ok.injEq, Prod.mk.injEq] at h
    rw [← h.2]
    exact ReadOnly.refl
  | succ n ih =>
    unfold decode_chars at h
    obtain ⟨⟨b, s1⟩, h1, h⟩ := bind_ok_inv h
    obtain ⟨⟨cs2, s2⟩, h2, h⟩ := bind_ok_inv h
    simp only [Except.ok.injEq, Prod.mk.injEq] at h
    rw [← h.2]
    exact (get_byte_ro h1).trans (ih h2)

theorem decode_value_ro {s : Disassembler} {v : String} {s' : Disassembler}
    (h : decode_value s = .ok (v, s')) : ReadOnly s s' := by
  unfold decode_value at h
  obtain ⟨⟨n, s1⟩, h1, h⟩ := bind_ok_inv h
  obtain ⟨⟨cs, s2⟩, h2, h⟩ := bind_ok_inv h
  simp only [Except.ok.injEq, Prod.mk.injEq] at h
  rw [← h.2]
  exact (get_pointer_byte_ro h1).trans (decode_chars_ro h2)

theorem get_int24_ro {s : Disassembler} {n : Nat} {s' : Disassembler}
    (h : get_int24 s = .ok (n, s')) : ReadOnly s s' := by
  unfold get_int24 at h
  obtain ⟨⟨b0, s1⟩, h1, h⟩ := bind_ok_inv h
  obtain ⟨⟨b1, s2⟩, h2, h⟩ := bind_ok_inv h
  obtain ⟨⟨b2, s3⟩, h3, h⟩ := bind_ok_inv h
  obtain ⟨⟨b3, s4⟩, h4, h⟩ := bind_ok_inv h
  simp only [Except.ok.injEq, Prod.mk.injEq] at h
  rw [← h.2]
  exact (((get_byte_ro h1).trans (get_byte_ro h2)).trans (get_byte_ro h3)).trans
    (get_byte_ro h4)

theorem read_double_ro {s : Disassembler} {v : ℚ} {s' : Disassembler}
    (h : read_double s = .ok (v, s')) : ReadOnly s s' := by
  unfold read_double at h
  obtain ⟨⟨b0, s1⟩, h1, h⟩ := bind_ok_inv h
  obtain ⟨⟨b1, s2⟩, h2, h⟩ := bind_ok_inv h
  obtain ⟨⟨b2, s3⟩, h3, h⟩ := bind_ok_inv h
  obtain ⟨⟨b3, s4⟩, h4, h⟩ := bind_ok_inv h
  obtain ⟨⟨b4, s5⟩, h5, h⟩ := bind_ok_inv h
  obtain ⟨⟨b5, s6⟩, h6, h⟩ := bind_ok_inv h
  obtain ⟨⟨b6, s7⟩, h7, h⟩ := bind_ok_inv h
  obtain ⟨⟨b7, s8⟩, h8, h⟩ := bind_ok_inv h
  have hro : ReadOnly s s8 :=
    (((((((get_byte_ro h1).trans (get_byte_ro h2)).trans (get_byte_ro h3)).trans
      (get_byte_ro h4)).trans (get_byte_ro h5)).trans (get_byte_ro h6)).trans
      (get_byte_ro h7)).trans (get_byte_ro h8)
  dsimp only at h
  split at h
  · split at h
    · exact (ok_pair_inv h).2 ▸ hro
    · exact (ok_pair_inv h).2 ▸ hro
  · exact (ok_pair_inv h).2 ▸ hro

theorem read_reg_list_ro {n : Nat} {s : Disassembler} {args : List String}
    {s' : Disassembler} (h : read_reg_list s n = .ok (args, s')) : ReadOnly s s' := by
  induction n generalizing s args s' with
  | zero =>
    unfold read_reg_list at h
    simp only [Except.ok.injEq, Prod.mk.injEq] at h
    rw [← h.2]
    exact ReadOnly.refl
  | succ n ih =>
    unfold read_reg_list at h
    obtain ⟨⟨b, s1⟩, h1, h⟩ := bind_ok_inv h
    obtain ⟨⟨as2, s2⟩, h2, h⟩ := bind_ok_inv h
    simp only [Except.ok.injEq, Prod.mk.injEq] at h
    rw [← h.2]
    exact (get_byte_ro h1).trans (ih h2)

/-- What every formatter except `new_value` does to the state: the buffer
and registers are untouched, the cursor only advances, and exactly one
trace line is appended. -/
def FormatterOk (s s' : Disassembler) : Prop :=
  s'.bytearray = s.bytearray ∧ s.ptr ≤ s'.ptr ∧ s'.registers = s.registers ∧
    ∃ t, s'.trace = s.trace ++ [t]

theorem formatterOk_of_ro {s s1 : Disassembler} (ro : ReadOnly s s1) (t : String) :
    FormatterOk s { s1 with trace := s1.trace ++ [t] } :=
  ⟨ro.1, ro.2.1, ro.2.2.1, t, by rw [ro.2.2.2]⟩

theorem fmt3_ok {mn sep : String} {s s' : Disassembler} (h : fmt3 mn sep s = .ok s') :
    FormatterOk s s' := by
  unfold fmt3 at h
  obtain ⟨⟨r1, s1⟩, h1, h⟩ := bind_ok_inv h
  obtain ⟨⟨r2, s2⟩, h2, h⟩ := bind_ok_inv h
  obtain ⟨⟨r3, s3⟩, h3, h⟩ := bind_ok_inv h
  obtain rfl := (Except.ok.inj h).symm
  exact formatterOk_of_ro
    (((get_byte_ro h1).trans (get_byte_ro h2)).trans (get_byte_ro h3)) _

theorem fmt_jump_if_ok {mn : String} {s s' : Disassembler}
    (h : fmt_jump_if mn s = .ok s') : FormatterOk s s' := by
  unfold fmt_jump_if at h
  obtain ⟨⟨r1, s1⟩, h1, h⟩ := bind_ok_inv h
  obtain ⟨⟨p, s2⟩, h2, h⟩ := bind_ok_inv h
  obtain rfl := (Except.ok.inj h).symm
  exact formatterOk_of_ro ((get_byte_ro h1).trans (get_int24_ro h2)) _

theorem init_memory_ok {s s' : Disassembler} (h : init_memory s = .ok s') :
    FormatterOk s s' := by
  unfold init_memory at h
  obtain ⟨⟨r1, s1⟩, h1, h⟩ := bind_ok_inv h
  obtain ⟨⟨r2, s2⟩, h2, h⟩ := bind_ok_inv h
  obtain rfl := (Except.ok.inj h).symm
  exact formatterOk_of_ro ((get_byte_ro h1).trans (get_byte_ro h2)) _

/-- `new_value` keeps the buffer, advances the cursor, appends one trace
line, and updates exactly the one register slot named by its first operand
byte with the decoded string. -/
theorem new_value_ok {s s' : Disassembler} (h : new_value s = .ok s') :
    s'.bytearray = s.bytearray ∧ s.ptr ≤ s'.ptr ∧ (∃ t, s'.trace = s.trace ++ [t]) ∧
      ∃ r v, s'.registers = Function.update s.registers r v := by
  unfold new_value at h
  obtain ⟨⟨r1, s1⟩, h1, h⟩ := bind_ok_inv h
  obtain ⟨⟨v, s2⟩, h2, h⟩ := bind_ok_inv h
  obtain rfl := (Except.ok.inj h).symm
  have ro : ReadOnly s s2 := (get_byte_ro h1).trans (decode_value_ro h2)
  exact ⟨ro.1, ro.2.1, ⟨_, by rw [ro.2.2.2]⟩, r1, v, by rw [ro.2.2.1]⟩

theorem get_property_ok {s s' : Disassembler} (h : get_property s = .ok s') :
    FormatterOk s s' := by
  unfold get_property at h
  obtain ⟨⟨r1, s1⟩, h1, h⟩ := bind_ok_inv h
  obtain ⟨⟨r2, s2⟩, h2, h⟩ := bind_ok_inv h
  obtain ⟨⟨r3, s3⟩, h3, h⟩ := bind_ok_inv h
  obtain rfl := (Except.ok.inj h).symm
  exact formatterOk_of_ro
    (((get_byte_ro h1).trans (get_byte_ro h2)).trans (get_byte_ro h3)) _

theorem call_function_ok {s s' : Disassembler} (h : call_function s = .ok s') :
    FormatterOk s s' := by
  unfold call_function at h
  obtain ⟨⟨r1, s1⟩, h1, h⟩ := bind_ok_inv h
  obtain ⟨⟨r2, s2⟩, h2, h⟩ := bind_ok_inv h
  obtain ⟨⟨r3, s3⟩, h3, h⟩ := bind_ok_inv h
  obtain ⟨⟨args, s4⟩, h4, h⟩ := bind_ok_inv h
  obtain rfl := (Except.ok.inj h).symm
  exact formatterOk_of_ro
    ((((get_byte_ro h1).trans (get_byte_ro h2)).trans (get_byte_ro h3)).trans
      (read_reg_list_ro h4)) _

theorem mov_imm24_ok {s s' : Disassembler} (h : mov_imm24 s = .ok s') :
    FormatterOk s s' := by
  unfold mov_imm24 at h
  obtain ⟨⟨r1, s1⟩, h1, h⟩ := bind_ok_inv h
  obtain ⟨⟨p, s2⟩, h2, h⟩ := bind_ok_inv h
  obtain rfl := (Except.ok.inj h).symm
  exact formatterOk_of_ro ((get_byte_ro h1).trans (get_int24_ro h2)) _

theorem call_apply_ok {s s' : Disassembler} (h : call_apply s = .ok s') :
    FormatterOk s s' := by
  unfold call_apply at h
  obtain ⟨⟨r1, s1⟩, h1, h⟩ := bind_ok_inv h
  obtain ⟨⟨r2, s2⟩, h2, h⟩ := bind_ok_inv h
  obtain ⟨⟨r3, s3⟩, h3, h⟩ := bind_ok_inv h
  obtain ⟨⟨r4, s4⟩, h4, h⟩ := bind_ok_inv h
  obtain ⟨⟨args, s5⟩, h5, h⟩ := bind_ok_inv h
  obtain rfl := (Except.ok.inj h).symm
  exact formatterOk_of_ro
    (((((get_byte_ro h1).trans (get_byte_ro h2)).trans (get_byte_ro h3)).trans
      (get_byte_ro h4)).trans (read_reg_list_ro h5)) _

theorem push_args_ok {s s' : Disassembler} (h : push_args s = .ok s') :
    FormatterOk s s' := by
  unfold push_args at h
  obtain ⟨⟨r1, s1⟩, h1, h⟩ := bind_ok_inv h
  obtain ⟨⟨r2, s2⟩, h2, h⟩ := bind_ok_inv h
  obtain ⟨⟨args, s3⟩, h3, h⟩ := bind_ok_inv h
  obtain rfl := (Except.ok.inj h).symm
  exact formatterOk_of_ro
    (((get_byte_ro h1).trans (get_byte_ro h2)).trans (read_reg_list_ro h3)) _

theorem load_imm24_ok {s s' : Disassembler} (h : load_imm24 s = .ok s') :
    FormatterOk s s' := by
  unfold load_imm24 at h
  obtain ⟨⟨r1, s1⟩, h1, h⟩ := bind_ok_inv h
  obtain ⟨⟨r2, s2⟩, h2, h⟩ := bind_ok_inv h
  obtain rfl := (Except.ok.inj h).symm
  exact formatterOk_of_ro ((get_byte_ro h1).trans (get_byte_ro h2)) _

theorem jump_frame_ok {s s' : Disassembler} (h : jump_frame s = .ok s') :
    FormatterOk s s' := by
  unfold jump_frame at h
  obtain ⟨⟨p, s1⟩, h1, h⟩ := bind_ok_inv h
  obtain ⟨⟨r2, s2⟩, h2, h⟩ := bind_ok_inv h
  obtain ⟨⟨r3, s3⟩, h3, h⟩ := bind_ok_inv h
  obtain ⟨⟨params, s4⟩, h4, h⟩ := bind_ok_inv h
  obtain rfl := (Except.ok.inj h).symm
  exact formatterOk_of_ro
    ((((get_int24_ro h1).trans (get_byte_ro h2)).trans (get_byte_ro h3)).trans
      (read_reg_list_ro h4)) _

theorem new_function_ok {s s' : Disassembler} (h : new_function s = .ok s') :
    FormatterOk s s' := by
  unfold new_function at h
  obtain ⟨⟨r1, s1⟩, h1, h⟩ := bind_ok_inv h
  obtain ⟨⟨p, s2⟩, h2, h⟩ := bind_ok_inv h
  obtain ⟨⟨r3, s3⟩, h3, h⟩ := bind_ok_inv h
  obtain ⟨⟨args, s4⟩, h4, h⟩ := bind_ok_inv h
  obtain rfl := (Except.ok.inj h).symm
  exact formatterOk_of_ro
    ((((get_byte_ro h1).trans (get_int24_ro h2)).trans (get_byte_ro h3)).trans
      (read_reg_list_ro h4)) _

theorem set_property_ok {s s' : Disassembler} (h : set_property s = .ok s') :
    FormatterOk s s' := by
  unfold set_property at h
  obtain ⟨⟨r1, s1⟩, h1, h⟩ := bind_ok_inv h
  obtain ⟨⟨r2, s2⟩, h2, h⟩ := bind_ok_inv h
  obtain ⟨⟨r3, s3⟩, h3, h⟩ := bind_ok_inv h
  obtain rfl := (Except.ok.inj h).symm
  exact formatterOk_of_ro
    (((get_byte_ro h1).trans (get_byte_ro h2)).trans (get_byte_ro h3)) _

theorem jump_ok {s s' : Disassembler} (h : jump s = .ok s') : FormatterOk s s' := by
  unfold jump at h
  obtain ⟨⟨p, s1⟩, h1, h⟩ := bind_ok_inv h
  obtain rfl := (Except.ok.inj h).symm
  exact formatterOk_of_ro (get_int24_ro h1) _

theorem halt_ok {s s' : Disassembler} (h : halt s = .ok s') : FormatterOk s s' := by
  unfold halt at h
  obtain rfl := (Except.ok.inj h).symm
  exact formatterOk_of_ro ReadOnly.refl _

theorem function_ret_ok {s s' : Disassembler} (h : function_ret s = .ok s') :
    FormatterOk s s' := by
  unfold function_ret at h
  obtain ⟨⟨r1, s1⟩, h1, h⟩ := bind_ok_inv h
  obtain ⟨⟨r2, s2⟩, h2, h⟩ := bind_ok_inv h
  obtain ⟨⟨list, s3⟩, h3, h⟩ := bind_ok_inv h
  obtain rfl := (Except.ok.inj h).symm
  exact formatterOk_of_ro
    (((get_byte_ro h1).trans (get_byte_ro h2)).trans (read_reg_list_ro h3)) _

theorem load_double_ok {s s' : Disassembler} (h : load_double s = .ok s') :
    FormatterOk s s' := by
  unfold load_double at h
  obtain ⟨⟨r1, s1⟩, h1, h⟩ := bind_ok_inv h
  obtain ⟨⟨v, s2⟩, h2, h⟩ := bind_ok_inv h
  obtain rfl := (Except.ok.inj h).symm
  exact formatterOk_of_ro ((get_byte_ro h1).trans (read_double_ro h2)) _

theorem try_catch_ok {s s' : Disassembler} (h : try_catch s = .ok s') :
    FormatterOk s s' := by
  unfold try_catch at h
  obtain ⟨⟨r1, s1⟩, h1, h⟩ := bind_ok_inv h
  obtain ⟨⟨p1, s2⟩, h2, h⟩ := bind_ok_inv h
  obtain ⟨⟨p2, s3⟩, h3, h⟩ := bind_ok_inv h
  obtain ⟨⟨p3, s4⟩, h4, h⟩ := bind_ok_inv h
  obtain rfl := (Except.ok.inj h).symm
  exact formatterOk_of_ro
    ((((get_byte_ro h1).trans (get_int24_ro h2)).trans (get_int24_ro h3)).trans
      (get_int24_ro h4)) _

theorem throw_op_ok {s s' : Disassembler} (h : throw_op s = .ok s') :
    FormatterOk s s' := by
  unfold throw_op at h
  obtain ⟨⟨r1, s1⟩, h1, h⟩ := bind_ok_inv h
  obtain rfl := (Except.ok.inj h).symm
  exact formatterOk_of_ro (get_byte_ro h1) _

/-- Combined step specification of every dispatched formatter: buffer kept,
cursor monotone, exactly one trace line appended; every formatter other
than `new_value` also keeps the register file. -/
theorem runOp_ok {op : Op} {s s' : Disassembler} (h : runOp op s = .ok s') :
    s'.bytearray = s.bytearray ∧ s.ptr ≤ s'.ptr ∧ (∃ t, s'.trace = s.trace ++ [t]) ∧
      (op = Op.newValue ∨ s'.registers = s.registers) := by
  cases op
  case newValue =>
    obtain ⟨hb, hp, ht, -⟩ := new_value_ok h
    exact ⟨hb, hp, ht, Or.inl rfl⟩
  case initMemory => obtain ⟨hb, hp, hr, ht⟩ := init_memory_ok h; exact ⟨hb, hp, ht, Or.inr hr⟩
  case getProperty => obtain ⟨hb, hp, hr, ht⟩ := get_property_ok h; exact ⟨hb, hp, ht, Or.inr hr⟩
  case callFunction => obtain ⟨hb, hp, hr, ht⟩ := call_function_ok h; exact ⟨hb, hp, ht, Or.inr hr⟩
  case mulOp => obtain ⟨hb, hp, hr, ht⟩ := fmt3_ok h; exact ⟨hb, hp, ht, Or.inr hr⟩
  case movImm24 => obtain ⟨hb, hp, hr, ht⟩ := mov_imm24_ok h; exact ⟨hb, hp, ht, Or.inr hr⟩
  case callApply => obtain ⟨hb, hp, hr, ht⟩ := call_apply_ok h; exact ⟨hb, hp, ht, Or.inr hr⟩
  case divOp => obtain ⟨hb, hp, hr, ht⟩ := fmt3_ok h; exact ⟨hb, hp, ht, Or.inr hr⟩
  case orOp => obtain ⟨hb, hp, hr, ht⟩ := fmt3_ok h; exact ⟨hb, hp, ht, Or.inr hr⟩
  case subOp => obtain ⟨hb, hp, hr, ht⟩ := fmt3_ok h; exact ⟨hb, hp, ht, Or.inr hr⟩
  case pushArgs => obtain ⟨hb, hp, hr, ht⟩ := push_args_ok h; exact ⟨hb, hp, ht, Or.inr hr⟩
  case loadImm24 => obtain ⟨hb, hp, hr, ht⟩ := load_imm24_ok h; exact ⟨hb, hp, ht, Or.inr hr⟩
  case jumpFrame => obtain ⟨hb, hp, hr, ht⟩ := jump_frame_ok h; exact ⟨hb, hp, ht, Or.inr hr⟩
  case newFunction => obtain ⟨hb, hp, hr, ht⟩ := new_function_ok h; exact ⟨hb, hp, ht, Or.inr hr⟩
  case lessThan => obtain ⟨hb, hp, hr, ht⟩ := fmt3_ok h; exact ⟨hb, hp, ht, Or.inr hr⟩
  case jumpIfFalse => obtain ⟨hb, hp, hr, ht⟩ := fmt_jump_if_ok h; exact ⟨hb, hp, ht, Or.inr hr⟩
  case setProperty => obtain ⟨hb, hp, hr, ht⟩ := set_property_ok h; exact ⟨hb, hp, ht, Or.inr hr⟩
  case addOp => obtain ⟨hb, hp, hr, ht⟩ := fmt3_ok h; exact ⟨hb, hp, ht, Or.inr hr⟩
  case jumpOp => obtain ⟨hb, hp, hr, ht⟩ := jump_ok h; exact ⟨hb, hp, ht, Or.inr hr⟩
  case haltOp => obtain ⟨hb, hp, hr, ht⟩ := halt_ok h; exact ⟨hb, hp, ht, Or.inr hr⟩
  case shlOp => obtain ⟨hb, hp, hr, ht⟩ := fmt3_ok h; exact ⟨hb, hp, ht, Or.inr hr⟩
  case functionRet => obtain ⟨hb, hp, hr, ht⟩ := function_ret_ok h; exact ⟨hb, hp, ht, Or.inr hr⟩
  case equalOp => obtain ⟨hb, hp, hr, ht⟩ := fmt3_ok h; exact ⟨hb, hp, ht, Or.inr hr⟩
  case xorOp => obtain ⟨hb, hp, hr, ht⟩ := fmt3_ok h; exact ⟨hb, hp, ht, Or.inr hr⟩
  case loadDouble => obtain ⟨hb, hp, hr, ht⟩ := load_double_ok h; exact ⟨hb, hp, ht, Or.inr hr⟩
  case ushrOp => obtain ⟨hb, hp, hr, ht⟩ := fmt3_ok h; exact ⟨hb, hp, ht, Or.inr hr⟩
  case shrOp => obtain ⟨hb, hp, hr, ht⟩ := fmt3_ok h; exact ⟨hb, hp, ht, Or.inr hr⟩
  case andOp => obtain ⟨hb, hp, hr, ht⟩ := fmt3_ok h; exact ⟨hb, hp, ht, Or.inr hr⟩
  case modOp => obtain ⟨hb, hp, hr, ht⟩ := fmt3_ok h; exact ⟨hb, hp, ht, Or.inr hr⟩
  case lteOp => obtain ⟨hb, hp, hr, ht⟩ := fmt3_ok h; exact ⟨hb, hp, ht, Or.inr hr⟩
  case notequalOp => obtain ⟨hb, hp, hr, ht⟩ := fmt3_ok h; exact ⟨hb, hp, ht, Or.inr hr⟩
  case jumpIfTrue => obtain ⟨hb, hp, hr, ht⟩ := fmt_jump_if_ok h; exact ⟨hb, hp, ht, Or.inr hr⟩
  case tryCatch => obtain ⟨hb, hp, hr, ht⟩ := try_catch_ok h; exact ⟨hb, hp, ht, Or.inr hr⟩
  case strictEqualOp => obtain ⟨hb, hp, hr, ht⟩ := fmt3_ok h; exact ⟨hb, hp, ht, Or.inr hr⟩
  case strictNotequalOp => obtain ⟨hb, hp, hr, ht⟩ := fmt3_ok h; exact ⟨hb, hp, ht, Or.inr hr⟩
  case throwOp => obtain ⟨hb, hp, hr, ht⟩ := throw_op_ok h; exact ⟨hb, hp, ht, Or.inr hr⟩

/-- `Disassembler::execute`: while the cursor is inside the buffer, read an
opcode byte, look it up, run its formatter and emit the line
`"0x" ++ <cursor after the instruction, in decimal> ++ four spaces ++
<the trace line just appended>` (the source's
`format!("0x{}    {}", self.ptr, last_instr)` over
`self.trace[self.trace.len() - 1]`).  Returns the emitted lines in order
and the terminal status: `none` for normal cursor exhaustion, `some e`
when the run aborts (a panic in the source). -/
def execute (s : Disassembler) : List String × Option DisasmError :=
  if h : s.ptr < s.bytearray.length then
    let offset : Fin 256 := s.bytearray.get ⟨s.ptr, h⟩
    match table offset with
    | some op =>
      match hrun : runOp op { s with ptr := s.ptr + 1 } with
      | .ok s2 =>
        let last_instr := s2.trace.getD (s2.trace.length - 1) ""
        let new_instr := "0x" ++ toString s2.ptr ++ "    " ++ last_instr
        let rest := execute s2
        (new_instr :: rest.1, rest.2)
      | .error e => ([], some e)
    | none => ([], some (.unknownOpcode offset))
  else ([], none)
termination_by s.bytearray.length - s.ptr
decreasing_by
  simp_wf
  have hs := runOp_ok hrun
  have hb : s2.bytearray = s.bytearray := hs.1
  have hp : s.ptr + 1 ≤ s2.ptr := hs.2.1
  rw [hb]
  omega

theorem ok_bind {α β : Type} (a : α) (f : α → Except DisasmError β) :
    (Except.ok a >>= f : Except DisasmError β) = f a := rfl

theorem drop_cons {α : Type _} {l : List α} {p : Nat} {a : α} {rest : List α}
    (h : l.drop p = a :: rest) : l[p]? = some a ∧ l.drop (p + 1) = rest := by
  have hlen := congrArg List.length h
  simp only [List.length_drop, List.length_cons] at hlen
  have hlt : p < l.length := by omega
  have h2 := List.drop_eq_getElem_cons (l := l) (n := p) hlt
  rw [h] at h2
  injection h2 with ha hrest
  exact ⟨by rw [List.getElem?_eq_getElem hlt, ha], hrest.symm⟩

theorem get_byte_drop {s : Disassembler} {a : Fin 256} {rest : List (Fin 256)}
    (h : s.bytearray.drop s.ptr = a :: rest) :
    get_byte s = .ok (a, { s with ptr := s.ptr + 1 }) := by
  obtain ⟨hget, -⟩ := drop_cons h
  unfold get_byte
  rw [hget]

theorem shiftLeft_lor_eq (a : Nat) {b k : Nat} (hb : b < 2 ^ k) :
    (a <<< k) ||| b = 2 ^ k * a + b := by
  rw [Nat.shiftLeft_eq, Nat.mul_comm, ← Nat.mul_add_lt_is_or hb]

theorem get_pointer_byte_drop {s : Disassembler} {b1 b2 : Fin 256}
    {rest : List (Fin 256)} (h : s.bytearray.drop s.ptr = b1 :: b2 :: rest) :
    get_pointer_byte s = .ok (256 * b1.val + b2.val, { s with ptr := s.ptr + 2 }) := by
  obtain ⟨-, hd1⟩ := drop_cons h
  have g1 := get_byte_drop h
  have g2 : get_byte { s with ptr := s.ptr + 1 } =
      .ok (b2, { s with ptr := s.ptr + 1 + 1 }) :=
    get_byte_drop (by simpa using hd1)
  unfold get_pointer_byte
  rw [g1, ok_bind]
  dsimp only
  rw [g2, ok_bind]
  dsimp only
  rw [shiftLeft_lor_eq b1.val b2.isLt]
  norm_num

/-- The byte the round-trip encoder of the spec writes for one character:
its code XOR 50 (§8: "for each character writes `code ^ 50` as one byte"). -/
def encodeChar (c : Char) : Fin 256 :=
  ⟨(c.toNat ^^^ 50) % 256, Nat.mod_lt _ (by norm_num)⟩

/-- The round-trip encoder of the spec (§8): a 16-bit big-endian length,
then one byte per character of `code XOR 50`. -/
def encodeString (t : List Char) : List (Fin 256) :=
  ⟨t.length / 256 % 256, Nat.mod_lt _ (by norm_num)⟩ ::
    ⟨t.length % 256, Nat.mod_lt _ (by norm_num)⟩ :: t.map encodeChar

theorem decode_chars_encoded (t : List Char) (hc : ∀ c ∈ t, c.toNat < 256) :
    ∀ (s : Disassembler) (rest : List (Fin 256)),
      s.bytearray.drop s.ptr = t.map encodeChar ++ rest →
      decode_chars s t.length = .ok (t, { s with ptr := s.ptr + t.length }) := by
  induction t with
  | nil =>
    intro s rest _
    rfl
  | cons c cs ih =>
    intro s rest h
    rw [List.map_cons, List.cons_append] at h
    have g1 := get_byte_drop h
    have hd := (drop_cons h).2
    show decode_chars s (cs.length + 1) = _
    unfold decode_chars
    rw [g1, ok_bind]
    dsimp only
    rw [ih (fun c' hc' => hc c' (List.mem_cons_of_mem _ hc')) _ rest (by simpa using hd),
      ok_bind]
    dsimp only
    have hx : c.toNat ^^^ 50 < 256 :=
      Nat.xor_lt_two_pow (n := 8) (hc c (List.mem_cons_self _ _)) (by norm_num)
    have hbyte : (encodeChar c).val = c.toNat ^^^ 50 := Nat.mod_eq_of_lt hx
    rw [hbyte, Nat.xor_cancel_right, Char.ofNat_toNat]
    have hptr : s.ptr + 1 + cs.length = s.ptr + (cs.length + 1) := by omega
    rw [hptr]
    rfl

/-- C1: `decode_value` reads a 16-bit big-endian length `n`, then `n`
bytes, XORs each byte with the constant 50 and concatenates the resulting
code points in order; consequently, decoding the encoding of any text
whose characters all lie in 0–255 (16-bit big-endian length, then one byte
per character of `code XOR 50`) reproduces the original text exactly. -/
theorem c1_decode_value_roundtrip (t : List Char) (hc : ∀ c ∈ t, c.toNat < 256)
    (hlen : t.length < 65536) (regs : Fin 256 → String) (tr : List String) :
    decode_value ⟨encodeString t, 0, regs, tr⟩ =
      .ok (String.mk t, ⟨encodeString t, 2 + t.length, regs, tr⟩) := by
  have hdrop : (⟨encodeString t, 0, regs, tr⟩ : Disassembler).bytearray.drop
      (⟨encodeString t, 0, regs, tr⟩ : Disassembler).ptr =
      (⟨t.length / 256 % 256, Nat.mod_lt _ (by norm_num)⟩ : Fin 256) ::
        (⟨t.length % 256, Nat.mod_lt _ (by norm_num)⟩ : Fin 256) :: t.map encodeChar := rfl
  have g := get_pointer_byte_drop hdrop
  unfold decode_value
  rw [g, ok_bind]
  dsimp only
  have hval : 256 * (t.length / 256 % 256) + t.length % 256 = t.length := by omega
  rw [hval]
  have hrest := decode_chars_encoded t hc
    { bytearray := encodeString t, ptr := 0 + 2, registers := regs, trace := tr } []
    (by simp [encodeString])
  rw [hrest, ok_bind]

/-- Witness for C1 at the concrete two-character text `hi`. -/
theorem c1_witness :
    decode_value ⟨encodeString ['h', 'i'], 0, fun _ => "_free_reg_", []⟩ =
      .ok (String.mk ['h', 'i'],
        ⟨encodeString ['h', 'i'], 2 + 2, fun _ => "_free_reg_", []⟩) :=
  c1_decode_value_roundtrip ['h', 'i'] (by decide) (by decide) _ _

theorem error_bind {α β : Type} (e : DisasmError) (f : α → Except DisasmError β) :
    ((Except.error e : Except DisasmError α) >>= f) = .error e := rfl

theorem get_byte_oob {s : Disassembler} (h : s.bytearray.length ≤ s.ptr) :
    get_byte s = .error .outOfBounds := by
  unfold get_byte
  rw [List.getElem?_eq_none h]

theorem decode_chars_oob : ∀ (n : Nat) (s : Disassembler),
    s.bytearray.length < s.ptr + n → s.ptr ≤ s.bytearray.length →
    decode_chars s n = .error .outOfBounds := by
  intro n
  induction n with
  | zero => intro s h h2; omega
  | succ n ih =>
    intro s h h2
    unfold decode_chars
    cases hx : s.bytearray[s.ptr]? with
    | none =>
      have hgb : get_byte s = .error .outOfBounds := by unfold get_byte; rw [hx]
      rw [hgb, error_bind]
    | some b =>
      obtain ⟨hlt, -⟩ := List.getElem?_eq_some.mp hx
      have hgb : get_byte s = .ok (b, { s with ptr := s.ptr + 1 }) := by
        unfold get_byte; rw [hx]
      rw [hgb, ok_bind]
      dsimp only
      rw [ih { s with ptr := s.ptr + 1 } (by dsimp only; omega) (by dsimp only; omega),
        error_bind]

/-- C4: every cursor read past the end fails with `OutOfBounds`; in
particular a `decode_value` (define-constant payload) whose declared
16-bit length prefix exceeds the bytes remaining after the prefix fails
with `OutOfBounds` instead of reading out of range. -/
theorem c4_out_of_bounds :
    (∀ s : Disassembler, s.bytearray.length ≤ s.ptr →
      get_byte s = .error .outOfBounds) ∧
    ∀ (s : Disassembler) (b1 b2 : Fin 256) (rest : List (Fin 256)),
      s.bytearray.drop s.ptr = b1 :: b2 :: rest →
      rest.length < 256 * b1.val + b2.val →
      decode_value s = .error .outOfBounds := by
  refine ⟨fun s h => get_byte_oob h, fun s b1 b2 rest h hlen => ?_⟩
  have g := get_pointer_byte_drop h
  have hlen2 := congrArg List.length h
  simp only [List.length_drop, List.length_cons] at hlen2
  unfold decode_value
  rw [g, ok_bind]
  dsimp only
  rw [decode_chars_oob _ _ (by dsimp only; omega) (by dsimp only; omega), error_bind]

/-- Witness for C4: an empty buffer read, and a define-constant payload
declaring length 5 with a single byte left. -/
theorem c4_witness :
    get_byte ⟨[], 0, fun _ => "_free_reg_", []⟩ = .error .outOfBounds ∧
    decode_value ⟨[0, 5, 65], 0, fun _ => "_free_reg_", []⟩ = .error .outOfBounds :=
  ⟨c4_out_of_bounds.1 _ (by decide),
   c4_out_of_bounds.2 ⟨[0, 5, 65], 0, fun _ => "_free_reg_", []⟩ 0 5 [65] rfl (by decide)⟩

theorem execute_exhausted {s : Disassembler} (h : s.bytearray.length ≤ s.ptr) :
    execute s = ([], none) := by
  unfold execute
  rw [dif_neg (by omega)]

theorem getD_concat (l : List String) (a : String) :
    (l ++ [a]).getD ((l ++ [a]).length - 1) "" = a := by
  have hl : (l ++ [a]).length - 1 = l.length := by simp
  rw [hl, List.getD, List.get?_eq_getElem?, List.getElem?_append_right (Nat.le_refl _)]
  simp

/-- One successful iteration of the driver loop: reading opcode `b`,
dispatching to `op` and running it to `s2` prepends the line built from
the post-instruction cursor and the last trace entry, then continues from
`s2`. -/
theorem execute_step {s : Disassembler} {b : Fin 256} {op : Op} {s2 : Disassembler}
    (hb : s.bytearray[s.ptr]? = some b) (htab : table b = some op)
    (hrun : runOp op { s with ptr := s.ptr + 1 } = .ok s2) :
    execute s =
      (("0x" ++ toString s2.ptr ++ "    " ++ s2.trace.getD (s2.trace.length - 1) "")
          :: (execute s2).1,
        (execute s2).2) := by
  obtain ⟨h, helem⟩ := List.getElem?_eq_some.mp hb
  have hoffb : s.bytearray.get ⟨s.ptr, h⟩ = b := helem
  conv_lhs => unfold execute
  rw [dif_pos h]
  dsimp only
  split
  · next op' heq =>
    rw [hoffb, htab] at heq
    injection heq with heq
    subst heq
    split
    · next s2' heq2 =>
      rw [hrun] at heq2
      injection heq2 with heq2
      subst heq2
      rfl
    · next e heq2 => rw [hrun] at heq2; exact absurd heq2 (by simp)
  · next heq => rw [hoffb, htab] at heq; exact absurd heq (by simp)

theorem execute_unknown {s : Disassembler} {b : Fin 256}
    (hb : s.bytearray[s.ptr]? = some b) (hnone : table b = none) :
    execute s = ([], some (.unknownOpcode b)) := by
  obtain ⟨h, helem⟩ := List.getElem?_eq_some.mp hb
  have hoffb : s.bytearray.get ⟨s.ptr, h⟩ = b := helem
  conv_lhs => unfold execute
  rw [dif_pos h]
  dsimp only
  split
  · next op' heq =>
    rw [hoffb, hnone] at heq
    exact absurd heq (by simp)
  · next heq => rw [hoffb]

theorem execute_error {s : Disassembler} {b : Fin 256} {op : Op} {e : DisasmError}
    (hb : s.bytearray[s.ptr]? = some b) (htab : table b = some op)
    (hrun : runOp op { s with ptr := s.ptr + 1 } = .error e) :
    execute s = ([], some e) := by
  obtain ⟨h, helem⟩ := List.getElem?_eq_some.mp hb
  have hoffb : s.bytearray.get ⟨s.ptr, h⟩ = b := helem
  conv_lhs => unfold execute
  rw [dif_pos h]
  dsimp only
  split
  · next op' heq =>
    rw [hoffb, htab] at heq
    injection heq with heq
    subst heq
    split
    · next s2' heq2 => rw [hrun] at heq2; exact absurd heq2 (by simp)
    · next e' heq2 =>
      rw [hrun] at heq2
      injection heq2 with heq2
      rw [heq2]
  · next heq => rw [hoffb, htab] at heq; exact absurd heq (by simp)

/-- C5: an opcode byte absent from the dispatch table aborts the run at
once with `UnknownOpcode` of that byte: no line is emitted from that point
on and nothing further is decoded. -/
theorem c5_unknown_opcode (s : Disassembler) (b : Fin 256)
    (hb : s.bytearray[s.ptr]? = some b) (hnone : table b = none) :
    execute s = ([], some (.unknownOpcode b)) :=
  execute_unknown hb hnone

/-- Witness for C5: byte value 0 has no table entry. -/
theorem c5_witness :
    execute ⟨[0], 0, fun _ => "_free_reg_", []⟩ =
      ([], some (.unknownOpcode 0)) :=
  c5_unknown_opcode ⟨[0], 0, fun _ => "_free_reg_", []⟩ 0 rfl rfl

/-- C6: a `halt` opcode (byte 166) only appends its one trace line and the
loop goes on decoding from the next byte with the same registers; the loop
stops only on cursor exhaustion (second conjunct) or a fatal failure. -/
theorem c6_halt_continues :
    (∀ s : Disassembler, s.bytearray[s.ptr]? = some 166 →
      execute s =
        (("0x" ++ toString (s.ptr + 1) ++ "    " ++ OpCodes.Halt.as_str) ::
            (execute { s with ptr := s.ptr + 1, trace := s.trace ++ [OpCodes.Halt.as_str] }).1,
          (execute { s with ptr := s.ptr + 1, trace := s.trace ++ [OpCodes.Halt.as_str] }).2)) ∧
    ∀ s : Disassembler, s.bytearray.length ≤ s.ptr → execute s = ([], none) := by
  constructor
  · intro s hb
    have htab : table 166 = some Op.haltOp := rfl
    have hrun : runOp Op.haltOp { s with ptr := s.ptr + 1 } =
        .ok { s with ptr := s.ptr + 1, trace := s.trace ++ [OpCodes.Halt.as_str] } := rfl
    have hst := execute_step hb htab hrun
    rw [hst]
    dsimp only
    rw [getD_concat]
  · intro s h
    exact execute_exhausted h

/-- Witness for C6: a buffer with a halt followed by another halt decodes
both lines; an exhausted cursor stops with no error. -/
theorem c6_witness :
    execute ⟨[166, 166], 0, fun _ => "_free_reg_", []⟩ =
      (("0x" ++ toString (0 + 1) ++ "    " ++ OpCodes.Halt.as_str) ::
          (execute ⟨[166, 166], 0 + 1, fun _ => "_free_reg_",
            [] ++ [OpCodes.Halt.as_str]⟩).1,
        (execute ⟨[166, 166], 0 + 1, fun _ => "_free_reg_",
          [] ++ [OpCodes.Halt.as_str]⟩).2) ∧
    execute ⟨[166, 166], 2, fun _ => "_free_reg_",
        [OpCodes.Halt.as_str, OpCodes.Halt.as_str]⟩ = ([], none) :=
  ⟨c6_halt_continues.1 ⟨[166, 166], 0, fun _ => "_free_reg_", []⟩ rfl,
   c6_halt_continues.2 _ (by decide)⟩

theorem execute_lines_shape_aux : ∀ (fuel : Nat) (s : Disassembler),
    s.bytearray.length - s.ptr ≤ fuel →
    ∀ l ∈ (execute s).1, ∃ (o : Nat) (t : String),
      l = "0x" ++ toString o ++ "    " ++ t := by
  intro fuel
  induction fuel with
  | zero =>
    intro s hf l hl
    rw [execute_exhausted (by omega)] at hl
    exact absurd hl (by simp)
  | succ n ih =>
    intro s hf l hl
    by_cases h : s.ptr < s.bytearray.length
    · have hb : s.bytearray[s.ptr]? = some (s.bytearray.get ⟨s.ptr, h⟩) :=
        List.getElem?_eq_getElem h
      cases htab : table (s.bytearray.get ⟨s.ptr, h⟩) with
      | none =>
        rw [execute_unknown hb htab] at hl
        exact absurd hl (by simp)
      | some op =>
        cases hrun : runOp op { s with ptr := s.ptr + 1 } with
        | error e =>
          rw [execute_error hb htab hrun] at hl
          exact absurd hl (by simp)
        | ok s2 =>
          rw [execute_step hb htab hrun] at hl
          rcases List.mem_cons.mp hl with hl | hl
          · exact ⟨s2.ptr, s2.trace.getD (s2.trace.length - 1) "", hl⟩
          · obtain ⟨hbuf, hptr, -, -⟩ := runOp_ok hrun
            refine ih s2 ?_ l hl
            rw [hbuf]
            dsimp only at hptr ⊢
            omega
    · rw [execute_exhausted (by omega)] at hl
      exact absurd hl (by simp)

/-- C9: every emitted output line is the fixed two-character prefix `0x`,
then the decimal (`toString` on `Nat`) rendering of the cursor offset
measured immediately after the instruction finished decoding, then
whitespace, then the instruction text: one driver iteration emits exactly
that line for the trace entry its formatter appended (first conjunct), and
every line of every run has this shape (second conjunct). -/
theorem c9_line_format :
    (∀ (s : Disassembler) (b : Fin 256) (op : Op) (s2 : Disassembler) (t : String),
      s.bytearray[s.ptr]? = some b → table b = some op →
      runOp op { s with ptr := s.ptr + 1 } = .ok s2 →
      s2.trace = s.trace ++ [t] →
      execute s = (("0x" ++ toString s2.ptr ++ "    " ++ t) :: (execute s2).1,
        (execute s2).2)) ∧
    ∀ s : Disassembler, ∀ l ∈ (execute s).1, ∃ (o : Nat) (t : String),
      l = "0x" ++ toString o ++ "    " ++ t := by
  constructor
  · intro s b op s2 t hb htab hrun ht
    rw [execute_step hb htab hrun, ht, getD_concat]
  · intro s l hl
    exact execute_lines_shape_aux (s.bytearray.length - s.ptr) s (Nat.le_refl _) l hl

/-- Witness for C9: the single-halt buffer emits `0x1` plus four spaces
plus the halt mnemonic. -/
theorem c9_witness :
    (execute ⟨[166], 0, fun _ => "_free_reg_", []⟩ =
      (("0x" ++ toString (0 + 1) ++ "    " ++ OpCodes.Halt.as_str) ::
          (execute ⟨[166], 0 + 1, fun _ => "_free_reg_", [] ++ [OpCodes.Halt.as_str]⟩).1,
        (execute ⟨[166], 0 + 1, fun _ => "_free_reg_", [] ++ [OpCodes.Halt.as_str]⟩).2)) ∧
    ∃ (o : Nat) (t : String),
      "0x" ++ toString (0 + 1) ++ "    " ++ OpCodes.Halt.as_str =
        "0x" ++ toString o ++ "    " ++ t := by
  have e1 := c9_line_format.1 ⟨[166], 0, fun _ => "_free_reg_", []⟩ 166 Op.haltOp
    ⟨[166], 0 + 1, fun _ => "_free_reg_", [] ++ [OpCodes.Halt.as_str]⟩
    OpCodes.Halt.as_str rfl rfl rfl rfl
  refine ⟨e1, ?_⟩
  have hl : ("0x" ++ toString (0 + 1) ++ "    " ++ OpCodes.Halt.as_str) ∈
      (execute ⟨[166], 0, fun _ => "_free_reg_", []⟩).1 := by
    rw [e1]
    exact List.mem_cons_self _ _
  exact c9_line_format.2 _ _ hl

/-- The contents of the dispatch `HashMap`, as the association list of
its 38 inserts (all keys distinct, so insert order is immaterial). -/
def table_assoc : List (Fin 256 × Op) :=
  [(124, .initMemory), (23, .newValue), (251, .getProperty), (215, .callFunction),
   (6, .mulOp), (241, .movImm24), (90, .callApply), (55, .divOp), (65, .orOp),
   (230, .subOp), (88, .pushArgs), (181, .loadImm24), (49, .jumpFrame),
   (171, .newFunction), (20, .lessThan), (39, .jumpIfFalse), (112, .lessThan),
   (99, .setProperty), (243, .addOp), (93, .jumpOp), (166, .haltOp), (53, .shlOp),
   (17, .functionRet), (78, .equalOp), (117, .xorOp), (51, .loadDouble),
   (40, .ushrOp), (149, .shrOp), (37, .andOp), (156, .modOp), (247, .lteOp),
   (214, .lteOp), (22, .notequalOp), (83, .jumpIfTrue), (115, .tryCatch),
   (161, .strictEqualOp), (220, .strictNotequalOp), (5, .throwOp)]

theorem table_eq_assoc : ∀ b : Fin 256,
    table b = (table_assoc.find? (fun p => p.1 == b)).map Prod.snd := by
  decide

theorem table_mem {b : Fin 256} {op : Op} (h : table b = some op) :
    (b, op) ∈ table_assoc := by
  rw [table_eq_assoc] at h
  obtain ⟨p, hfind, hsnd⟩ := Option.map_eq_some'.mp h
  have hkey : p.1 = b := by
    have := List.find?_some hfind
    exact eq_of_beq this
  have hmem := List.mem_of_find?_eq_some hfind
  have hp : p = (b, op) := Prod.ext hkey hsnd
  rw [hp] at hmem
  exact hmem

theorem table_assoc_inj : ∀ p1 ∈ table_assoc, ∀ p2 ∈ table_assoc, p1.2 = p2.2 →
    p1.1 = p2.1 ∨
      (p1.1 ∈ ([20, 112] : List (Fin 256)) ∧ p2.1 ∈ ([20, 112] : List (Fin 256))) ∨
      (p1.1 ∈ ([247, 214] : List (Fin 256)) ∧ p2.1 ∈ ([247, 214] : List (Fin 256))) := by
  decide

/-- C7: opcode bytes 20 and 112 dispatch to the same less-than formatter
and 247 and 214 to the same less-or-equal formatter, so the paired bytes
decode identically on every state; every other table entry is hit by
exactly one byte. -/
theorem c7_aliases :
    table 20 = some Op.lessThan ∧ table 112 = some Op.lessThan ∧
    table 247 = some Op.lteOp ∧ table 214 = some Op.lteOp ∧
    (∀ s : Disassembler, (table 20).map (fun op => runOp op s) =
      (table 112).map (fun op => runOp op s)) ∧
    (∀ s : Disassembler, (table 247).map (fun op => runOp op s) =
      (table 214).map (fun op => runOp op s)) ∧
    ∀ b1 b2 : Fin 256, table b1 = table b2 → table b1 ≠ none →
      b1 = b2 ∨ (b1 ∈ ([20, 112] : List (Fin 256)) ∧ b2 ∈ ([20, 112] : List (Fin 256))) ∨
        (b1 ∈ ([247, 214] : List (Fin 256)) ∧ b2 ∈ ([247, 214] : List (Fin 256))) := by
  refine ⟨rfl, rfl, rfl, rfl, fun s => rfl, fun s => rfl, ?_⟩
  intro b1 b2 heq hne
  obtain ⟨op, hop1⟩ := Option.ne_none_iff_exists'.mp hne
  have hop2 : table b2 = some op := by rw [← heq, hop1]
  have h1 := table_mem hop1
  have h2 := table_mem hop2
  rcases table_assoc_inj _ h1 _ h2 rfl with h | h | h
  · exact Or.inl h
  · exact Or.inr (Or.inl h)
  · exact Or.inr (Or.inr h)

/-- Witness for C7 at the aliased pair 20 and 112. -/
theorem c7_witness :
    (20 : Fin 256) = 112 ∨
      ((20 : Fin 256) ∈ ([20, 112] : List (Fin 256)) ∧
        (112 : Fin 256) ∈ ([20, 112] : List (Fin 256))) ∨
      ((20 : Fin 256) ∈ ([247, 214] : List (Fin 256)) ∧
        (112 : Fin 256) ∈ ([247, 214] : List (Fin 256))) :=
  c7_aliases.2.2.2.2.2.2 20 112 rfl (by decide)

/-- Counterexample to C2 as stated: register 5 holds the constant `"foo"`,
yet the get-property line renders the object operand as the synthesized
`reg5` and the stored text `foo` appears nowhere in the line. -/
theorem c2_counterexample :
    (⟨[1, 5, 7], 0, (fun i => if i = 5 then "foo" else "_free_reg_"), []⟩ :
        Disassembler).registers 5 = "foo" ∧
    get_property ⟨[1, 5, 7], 0, (fun i => if i = 5 then "foo" else "_free_reg_"), []⟩ =
      .ok ⟨[1, 5, 7], 3, (fun i => if i = 5 then "foo" else "_free_reg_"),
        ["get-property reg5[reg7] -> reg1"]⟩ ∧
    ¬ List.IsInfix "foo".data ("get-property reg5[reg7] -> reg1").data :=
  ⟨rfl, rfl, by decide⟩

/-- C2 (amended): get-property resolves its property-register operand
through the symbol table and set-property resolves both its property- and
value-register operands; the object-register operand of either is always
rendered as the synthesized `"reg" + index` reference. -/
theorem c2_resolution (s : Disassembler) (d o p : Fin 256) (rest : List (Fin 256))
    (h : s.bytearray.drop s.ptr = d :: o :: p :: rest) :
    get_property s = .ok { s with ptr := s.ptr + 3, trace := s.trace ++
      [OpCodes.GetProperty.as_str ++ " reg" ++ toString o.val ++ "[" ++
        resolve s.registers p ++ "] -> reg" ++ toString d.val] } ∧
    set_property s = .ok { s with ptr := s.ptr + 3, trace := s.trace ++
      [OpCodes.SetProperty.as_str ++ " reg" ++ toString d.val ++ "[" ++
        resolve s.registers o ++ "] = " ++ resolve s.registers p] } := by
  have g1 := get_byte_drop h
  have hd1 := (drop_cons h).2
  have g2 : get_byte { s with ptr := s.ptr + 1 } =
      .ok (o, { s with ptr := s.ptr + 1 + 1 }) := get_byte_drop (by simpa using hd1)
  have hd2 : s.bytearray.drop (s.ptr + 1 + 1) = p :: rest := by
    have := (drop_cons (l := s.bytearray) (p := s.ptr + 1) (by simpa using hd1)).2
    simpa using this
  have g3 : get_byte { s with ptr := s.ptr + 1 + 1 } =
      .ok (p, { s with ptr := s.ptr + 1 + 1 + 1 }) := get_byte_drop (by simpa using hd2)
  constructor
  · unfold get_property
    rw [g1, ok_bind]
    dsimp only
    rw [g2, ok_bind]
    dsimp only
    rw [g3, ok_bind]
  · unfold set_property
    rw [g1, ok_bind]
    dsimp only
    rw [g2, ok_bind]
    dsimp only
    rw [g3, ok_bind]

/-- Witness for C2 at register file with `"foo"` in slot 5. -/
theorem c2_witness :
    get_property ⟨[1, 5, 7], 0, (fun i => if i = 5 then "foo" else "_free_reg_"), []⟩ =
      .ok ⟨[1, 5, 7], 3, (fun i => if i = 5 then "foo" else "_free_reg_"),
        ["get-property reg5[reg7] -> reg1"]⟩ ∧
    set_property ⟨[1, 5, 7], 0, (fun i => if i = 5 then "foo" else "_free_reg_"), []⟩ =
      .ok ⟨[1, 5, 7], 3, (fun i => if i = 5 then "foo" else "_free_reg_"),
        ["set-property reg1[foo] = reg7"]⟩ := by
  have hc := c2_resolution
    ⟨[1, 5, 7], 0, (fun i => if i = 5 then "foo" else "_free_reg_"), []⟩ 1 5 7 [] rfl
  exact ⟨hc.1, hc.2⟩

/-- C10: the sentinel text `"_free_reg_"` is the unbound representation:
when define-constant stores the decoded string `"_free_reg_"` into a
register, the slot is updated to the sentinel and every later resolution
of that register yields the synthesized `"reg" + index` reference, as
though the register had never been defined. -/
theorem c10_sentinel (s : Disassembler) (r : Fin 256) (rest : List (Fin 256))
    (h : s.bytearray.drop s.ptr = r :: rest) (v : String) (s1 : Disassembler)
    (hv : decode_value { s with ptr := s.ptr + 1 } = .ok (v, s1))
    (hfree : v = "_free_reg_") :
    new_value s = .ok { s1 with
      trace := s1.trace ++
        [OpCodes.NewValue.as_str ++ " " ++ "'" ++ v ++ "'" ++ " -> reg" ++ toString r.val],
      registers := Function.update s1.registers r v } ∧
    resolve (Function.update s1.registers r v) r = "reg" ++ toString r.val := by
  constructor
  · unfold new_value
    rw [get_byte_drop h, ok_bind]
    dsimp only
    rw [hv, ok_bind]
  · subst hfree
    simp [resolve, Function.update_same]

/-- Witness for C10: a define-constant whose payload decodes to the
sentinel makes `resolve` fall back to the `reg3` reference. -/
theorem c10_witness :
    new_value ⟨[3, 0, 10, 109, 84, 64, 87, 87, 109, 64, 87, 85, 109], 0,
        (fun _ => "x"), []⟩ =
      .ok ⟨[3, 0, 10, 109, 84, 64, 87, 87, 109, 64, 87, 85, 109], 13,
        Function.update (fun _ => "x") 3 "_free_reg_",
        ["define-constant '_free_reg_' -> reg3"]⟩ ∧
    resolve (Function.update (fun _ => "x") 3 "_free_reg_") 3 =
      "reg" ++ toString (3 : Fin 256).val := by
  have hc := c10_sentinel
    ⟨[3, 0, 10, 109, 84, 64, 87, 87, 109, 64, 87, 85, 109], 0, (fun _ => "x"), []⟩
    3 [0, 10, 109, 84, 64, 87, 87, 109, 64, 87, 85, 109] rfl "_free_reg_"
    ⟨[3, 0, 10, 109, 84, 64, 87, 87, 109, 64, 87, 85, 109], 13, (fun _ => "x"), []⟩
    rfl rfl
  exact ⟨hc.1, hc.2⟩

/-- The significand value the spec ascribes to a bit string:
`Σ bit_k · 2^(−k)` with bit 0 carrying weight 1 (§4.2). -/
def significand : List Nat → ℚ
  | [] => 0
  | d :: rest => (d : ℚ) + significand rest / 2

theorem mantissaSum_foldl (l : List Nat) : ∀ a f : ℚ,
    (l.foldl (fun (p : ℚ × ℚ) (d : Nat) => (p.1 + p.2 * (d : ℚ), p.2 / 2)) (a, f)).1 =
      a + f * significand l := by
  induction l with
  | nil => intro a f; simp [significand]
  | cons d rest ih =>
    intro a f
    rw [List.foldl_cons, ih, significand]
    ring

/-- The source's mantissa accumulation loop computes exactly the spec's
`Σ bit_k · 2^(−k)`. -/
theorem mantissaSum_eq (l : List Nat) : mantissaSum l = significand l := by
  unfold mantissaSum
  rw [mantissaSum_foldl]
  ring

/-- The 64-entry bit list built from eight bytes, most significant byte
and bit first (the source's `bit_string`). -/
def doubleBits (b0 b1 b2 b3 b4 b5 b6 b7 : Fin 256) : List Nat :=
  byteBits b0 ++ byteBits b1 ++ byteBits b2 ++ byteBits b3 ++
  byteBits b4 ++ byteBits b5 ++ byteBits b6 ++ byteBits b7

/-- C3: for every 8-byte input whose biased exponent field (bits 1–11) is
all zero, `read_double` returns exactly `0` when the mantissa field (bits
12–63) is also all zero — the sign bit is discarded — and otherwise
returns the subnormal value with effective exponent `-1022` and
significand bit string `0 ::` mantissa field (no implicit leading 1),
evaluated as `Σ bit_k · 2^(−k)`. -/
theorem c3_read_double_subnormal (b0 b1 b2 b3 b4 b5 b6 b7 : Fin 256)
    (regs : Fin 256 → String) (tr : List String)
    (hexp : binToNat (((doubleBits b0 b1 b2 b3 b4 b5 b6 b7).drop 1).take 11) = 0) :
    (¬ ((doubleBits b0 b1 b2 b3 b4 b5 b6 b7).drop 12).contains 1 →
      read_double ⟨[b0, b1, b2, b3, b4, b5, b6, b7], 0, regs, tr⟩ =
        .ok (0, ⟨[b0, b1, b2, b3, b4, b5, b6, b7], 8, regs, tr⟩)) ∧
    (((doubleBits b0 b1 b2 b3 b4 b5 b6 b7).drop 12).contains 1 →
      read_double ⟨[b0, b1, b2, b3, b4, b5, b6, b7], 0, regs, tr⟩ =
        .ok ((if b0.val / 128 % 2 = 1 then (-1 : ℚ) else 1) *
          significand ((0 : Nat) :: (doubleBits b0 b1 b2 b3 b4 b5 b6 b7).drop 12) *
            (2 : ℚ) ^ (-1022 : Int),
          ⟨[b0, b1, b2, b3, b4, b5, b6, b7], 8, regs, tr⟩)) := by
  have g0 : get_byte ⟨[b0, b1, b2, b3, b4, b5, b6, b7], 0, regs, tr⟩ =
      .ok (b0, ⟨[b0, b1, b2, b3, b4, b5, b6, b7], 1, regs, tr⟩) := rfl
  have g1 : get_byte ⟨[b0, b1, b2, b3, b4, b5, b6, b7], 1, regs, tr⟩ =
      .ok (b1, ⟨[b0, b1, b2, b3, b4, b5, b6, b7], 2, regs, tr⟩) := rfl
  have g2 : get_byte ⟨[b0, b1, b2, b3, b4, b5, b6, b7], 2, regs, tr⟩ =
      .ok (b2, ⟨[b0, b1, b2, b3, b4, b5, b6, b7], 3, regs, tr⟩) := rfl
  have g3 : get_byte ⟨[b0, b1, b2, b3, b4, b5, b6, b7], 3, regs, tr⟩ =
      .ok (b3, ⟨[b0, b1, b2, b3, b4, b5, b6, b7], 4, regs, tr⟩) := rfl
  have g4 : get_byte ⟨[b0, b1, b2, b3, b4, b5, b6, b7], 4, regs, tr⟩ =
      .ok (b4, ⟨[b0, b1, b2, b3, b4, b5, b6, b7], 5, regs, tr⟩) := rfl
  have g5 : get_byte ⟨[b0, b1, b2, b3, b4, b5, b6, b7], 5, regs, tr⟩ =
      .ok (b5, ⟨[b0, b1, b2, b3, b4, b5, b6, b7], 6, regs, tr⟩) := rfl
  have g6 : get_byte ⟨[b0, b1, b2, b3, b4, b5, b6, b7], 6, regs, tr⟩ =
      .ok (b6, ⟨[b0, b1, b2, b3, b4, b5, b6, b7], 7, regs, tr⟩) := rfl
  have g7 : get_byte ⟨[b0, b1, b2, b3, b4, b5, b6, b7], 7, regs, tr⟩ =
      .ok (b7, ⟨[b0, b1, b2, b3, b4, b5, b6, b7], 8, regs, tr⟩) := rfl
  have hrd : read_double ⟨[b0, b1, b2, b3, b4, b5, b6, b7], 0, regs, tr⟩ =
      (if (binToNat (((doubleBits b0 b1 b2 b3 b4 b5 b6 b7).drop 1).take 11) : Int) = 0 then
        if ¬ ((doubleBits b0 b1 b2 b3 b4 b5 b6 b7).drop 12).contains 1 then
          .ok (0, ⟨[b0, b1, b2, b3, b4, b5, b6, b7], 8, regs, tr⟩)
        else
          .ok ((if (doubleBits b0 b1 b2 b3 b4 b5 b6 b7).take 1 = [1] then (-1 : ℚ) else 1) *
            mantissaSum ((0 : Nat) :: (doubleBits b0 b1 b2 b3 b4 b5 b6 b7).drop 12) *
              (2 : ℚ) ^ (-1022 : Int),
            ⟨[b0, b1, b2, b3, b4, b5, b6, b7], 8, regs, tr⟩)
      else
        .ok ((if (doubleBits b0 b1 b2 b3 b4 b5 b6 b7).take 1 = [1] then (-1 : ℚ) else 1) *
          mantissaSum ((1 : Nat) :: (doubleBits b0 b1 b2 b3 b4 b5 b6 b7).drop 12) *
            (2 : ℚ) ^ ((binToNat (((doubleBits b0 b1 b2 b3 b4 b5 b6 b7).drop 1).take 11) : Int)
              - 1023),
          ⟨[b0, b1, b2, b3, b4, b5, b6, b7], 8, regs, tr⟩)) := by
    unfold read_double
    rw [g0, ok_bind]
    dsimp only
    rw [g1, ok_bind]
    dsimp only
    rw [g2, ok_bind]
    dsimp only
    rw [g3, ok_bind]
    dsimp only
    rw [g4, ok_bind]
    dsimp only
    rw [g5, ok_bind]
    dsimp only
    rw [g6, ok_bind]
    dsimp only
    rw [g7, ok_bind]
    dsimp only [doubleBits]
  rw [hrd]
  simp only [hexp, Nat.cast_zero, if_true]
  have htake : (doubleBits b0 b1 b2 b3 b4 b5 b6 b7).take 1 = [b0.val / 128 % 2] := by
    dsimp only [doubleBits, byteBits]
    rfl
  constructor
  · intro hnc
    rw [if_pos hnc]
  · intro hc
    rw [if_neg (not_not_intro hc)]
    simp only [htake, List.cons.injEq, and_true, mantissaSum_eq]

/-- Witness for C3: the all-zero double decodes to exactly `0`, and the
pattern `80 00 00 00 00 00 00 01` (sign bit set, exponent field zero,
mantissa 1) takes the subnormal branch. -/
theorem c3_witness :
    (read_double ⟨[0, 0, 0, 0, 0, 0, 0, 0], 0, (fun _ => "_free_reg_"), []⟩ =
      .ok (0, ⟨[0, 0, 0, 0, 0, 0, 0, 0], 8, (fun _ => "_free_reg_"), []⟩)) ∧
    (read_double ⟨[128, 0, 0, 0, 0, 0, 0, 1], 0, (fun _ => "_free_reg_"), []⟩ =
      .ok ((if (128 : Fin 256).val / 128 % 2 = 1 then (-1 : ℚ) else 1) *
        significand ((0 : Nat) :: (doubleBits 128 0 0 0 0 0 0 1).drop 12) *
          (2 : ℚ) ^ (-1022 : Int),
        ⟨[128, 0, 0, 0, 0, 0, 0, 1], 8, (fun _ => "_free_reg_"), []⟩)) :=
  ⟨(c3_read_double_subnormal 0 0 0 0 0 0 0 0 (fun _ => "_free_reg_") []
      (by decide)).1 (by decide),
   (c3_read_double_subnormal 128 0 0 0 0 0 0 1 (fun _ => "_free_reg_") []
      (by decide)).2 (by decide)⟩

end Bet365
